import Mathlib

/-!
Verification development for the Pearl-2P signaling server (multi-project
host logic variant). The data model and the handlers — connection accept,
join-room host election, signal/data routing, disconnect cascade, and the
socket send primitive — are translated from the JavaScript source into
executable Lean definitions. JavaScript `Map` objects are modelled as
insertion-ordered association lists; `Map.set` replaces an existing entry
in place or appends a fresh one, exactly as the runtime does. A JS `Set`
of peer ids is modelled as a duplicate-free list in insertion order.
In-place mutation of a `Peer` or room object that is also held by a map is
modelled by updating the corresponding map entry (valid whenever the map
entry is that object, which is the case for registered peers and rooms).
The WebSocket handle of a peer is abstracted to the one bit the server
reads: whether `readyState === WebSocket.OPEN`. Handlers return the list
of `send` invocations they perform, in order; the `send` primitive itself
(the readyState gate) turns an invocation into an actual transmission.
-/

namespace Pearl2P

/-- `DEFAULT_PORT` from the source configuration block. -/
def DEFAULT_PORT : Nat := 19950

/-- `PING_INTERVAL` (milliseconds) from the source configuration block. -/
def PING_INTERVAL : Nat := 30000

/-- Server-to-peer messages, one constructor per `type` tag the server emits. -/
inductive SMsg where
  | welcome (id message : String)
  | roomCreated (role room message : String)
  | roomJoined (role room hostId : String)
  | peerJoined (peerId : String)
  | peerLeft (peerId : String)
  | hostDisconnected (message : String)
  | signal (sender payload : String)
  | data (sender payload : String)
  | error (code : Nat) (message : String)
deriving Repr, DecidableEq

/-- `class Peer`: the socket is abstracted to `socketOpen`
(`readyState === WebSocket.OPEN`). -/
structure Peer where
  id : String
  isAlive : Bool
  roomKey : Option String
  isHost : Bool
  socketOpen : Bool
deriving Repr, DecidableEq

/-- A room entry: `{ hostId: String, peers: Set<String> }`. -/
structure Room where
  hostId : String
  peers : List String
deriving Repr, DecidableEq

/-- One invocation of `this.send(peer, data)`. -/
abbrev Call := Peer × SMsg

/-- `Map.prototype.get` on an insertion-ordered association list: the value
of the first (in a well-formed map, only) entry whose key matches. -/
def mapGet {α : Type} : List (String × α) → String → Option α
  | [], _ => none
  | e :: m, k => if e.1 == k then some e.2 else mapGet m k

/-- In-place mutation of the value stored under an existing key (a no-op when
the key is absent), used to model mutating an object the map holds. -/
def mapUpdate {α : Type} : List (String × α) → String → α → List (String × α)
  | [], _, _ => []
  | e :: m, k, v => (if e.1 == k then (k, v) else e) :: mapUpdate m k v

/-- `Map.prototype.set`: replace in place when the key exists, else append. -/
def mapSet {α : Type} (m : List (String × α)) (k : String) (v : α) :
    List (String × α) :=
  if m.any (fun e => e.1 == k) then mapUpdate m k v else m ++ [(k, v)]

/-- `Map.prototype.delete` (idempotent). -/
def mapDelete {α : Type} : List (String × α) → String → List (String × α)
  | [], _ => []
  | e :: m, k => if e.1 != k then e :: mapDelete m k else mapDelete m k

/-- `Set.prototype.add` on a duplicate-free insertion-ordered list. -/
def addSet (s : List String) (x : String) : List String :=
  if s.contains x then s else s ++ [x]

/-- The whole mutable server state: `this.peers` and `this.rooms`. -/
structure ServerState where
  peers : List (String × Peer)
  rooms : List (String × Room)
deriving Repr, DecidableEq

/-- `send(peer, data)`: transmit on the peer's socket only when its
`readyState` is OPEN; otherwise the call silently does nothing. The result
is the list of frames actually put on the wire (target id, message). -/
def send (p : Peer) (m : SMsg) : List (String × SMsg) :=
  if p.socketOpen then [(p.id, m)] else []

/-- `generateId()`: the hex encoding of 4 random bytes. The random draw is a
parameter; the function consults no server state. -/
def generateId (randomBytesHex : String) : String := randomBytesHex

/-- The fresh `new Peer(socket, id)` record built in `handleConnection`. -/
def newPeer (gid : String) (socketOpen : Bool) : Peer :=
  { id := gid, isAlive := true, roomKey := none, isHost := false,
    socketOpen := socketOpen }

/-- `handleConnection`: store the peer under its generated id and send
`welcome`. -/
def handleConnection (s : ServerState) (randomBytesHex : String)
    (socketOpen : Bool) : ServerState × List Call :=
  let peerId := generateId randomBytesHex
  let peer := newPeer peerId socketOpen
  ({ s with peers := mapSet s.peers peerId peer },
   [(peer, SMsg.welcome peerId "Conectado ao Pearl-2P. Aguardando dados da sala (join-room).")])

/-- `sendError(peer, code, msg)`. -/
def sendError (p : Peer) (code : Nat) (msg : String) : List Call :=
  [(p, SMsg.error code msg)]

/-- The `join-room` payload; absent fields are `none`. (`instance` is a Lean
keyword, so the field is named `inst`.) -/
structure JoinPayload where
  project : Option String
  inst : Option String
  room : Option String
deriving Repr, DecidableEq

/-- JavaScript falsiness of an optional string field: absent or empty. -/
def strFalsy : Option String → Bool
  | none => true
  | some s => s.isEmpty

/-- `payload.instance || 'default'`. -/
def normInstance (o : Option String) : String :=
  if strFalsy o then "default" else o.getD ""

/-- The template literal building the namespaced key:
`project + "#" + instance + "#" + room`. -/
def roomKeyOf (project inst room : String) : String :=
  project ++ "#" ++ inst ++ "#" ++ room

/-- The key `handleJoinRoom` computes for a (validated) payload. -/
def joinKey (pl : JoinPayload) : String :=
  roomKeyOf (pl.project.getD "") (normInstance pl.inst) (pl.room.getD "")

/-- `handleJoinRoom(peer, payload)`: validation, then the create-vs-join
decision on the computed key. -/
def handleJoinRoom (s : ServerState) (peer : Peer)
    (payload : Option JoinPayload) : ServerState × List Call :=
  match payload with
  | none => (s, sendError peer 400 "Dados de projeto/sala incompletos.")
  | some pl =>
    if strFalsy pl.project || strFalsy pl.room then
      (s, sendError peer 400 "Dados de projeto/sala incompletos.")
    else
      let roomKey := joinKey pl
      match mapGet s.rooms roomKey with
      | some roomData =>
        let rooms1 := mapUpdate s.rooms roomKey
          { roomData with peers := addSet roomData.peers peer.id }
        let peer1 := { peer with roomKey := some roomKey, isHost := false }
        let reg1 := mapUpdate s.peers peer.id peer1
        let notif : List Call :=
          match mapGet reg1 roomData.hostId with
          | some hostPeer => [(hostPeer, SMsg.peerJoined peer.id)]
          | none => []
        (⟨reg1, rooms1⟩,
         (peer1, SMsg.roomJoined "client" (pl.room.getD "") roomData.hostId)
           :: notif)
      | none =>
        let newRoom : Room := { hostId := peer.id, peers := [] }
        let rooms1 := mapSet s.rooms roomKey newRoom
        let peer1 := { peer with roomKey := some roomKey, isHost := true }
        let reg1 := mapUpdate s.peers peer.id peer1
        (⟨reg1, rooms1⟩,
         [(peer1, SMsg.roomCreated "host" (pl.room.getD "")
             "Você é o Host. Aguardando peers...")])

/-- `routeSignal(sender, data)`. -/
def routeSignal (s : ServerState) (sender : Peer) (target payload : String) :
    ServerState × List Call :=
  match mapGet s.peers target with
  | some targetPeer => (s, [(targetPeer, SMsg.signal sender.id payload)])
  | none => (s, sendError sender 404 "Peer alvo desconectado.")

/-- `routeData(sender, data)`: note there is no else branch in the source. -/
def routeData (s : ServerState) (sender : Peer) (target payload : String) :
    ServerState × List Call :=
  match mapGet s.peers target with
  | some targetPeer => (s, [(targetPeer, SMsg.data sender.id payload)])
  | none => (s, [])

/-- The `roomData.peers.forEach` loop of the host branch of
`handleDisconnect`: notify each still-registered member and null its
`roomKey`, threading the registry. -/
def notifyMembers (reg : List (String × Peer)) (ids : List String) :
    List (String × Peer) × List Call :=
  match ids with
  | [] => (reg, [])
  | cid :: rest =>
    match mapGet reg cid with
    | some cp =>
      let reg1 := mapUpdate reg cid { cp with roomKey := none }
      let r := notifyMembers reg1 rest
      (r.1, (cp, SMsg.hostDisconnected "O Host encerrou a sessão.") :: r.2)
    | none => notifyMembers reg rest

/-- `handleDisconnect(peer)`: delete from the registry, then the room
cascade driven by the closure's `peer` object. -/
def handleDisconnect (s : ServerState) (peer : Peer) :
    ServerState × List Call :=
  let reg0 := mapDelete s.peers peer.id
  match peer.roomKey with
  | some rk =>
    match mapGet s.rooms rk with
    | some roomData =>
      if peer.isHost then
        let r := notifyMembers reg0 roomData.peers
        (⟨r.1, mapDelete s.rooms rk⟩, r.2)
      else
        let rooms1 := mapUpdate s.rooms rk
          { roomData with peers := roomData.peers.filter (fun x => x != peer.id) }
        match mapGet reg0 roomData.hostId with
        | some hostPeer => (⟨reg0, rooms1⟩, [(hostPeer, SMsg.peerLeft peer.id)])
        | none => (⟨reg0, rooms1⟩, [])
    | none => (⟨reg0, s.rooms⟩, [])
  | none => (⟨reg0, s.rooms⟩, [])

/-- Sequential processing of one `join-room` request per listed peer, all
with the same payload; returns the final state and each request's list of
send calls, in order. -/
def joinSeq : ServerState → JoinPayload → List Peer →
    ServerState × List (List Call)
  | s, _, [] => (s, [])
  | s, pl, q :: rest =>
    let r1 := handleJoinRoom s q (some pl)
    let r2 := joinSeq r1.1 pl rest
    (r2.1, r1.2 :: r2.2)

/-- Recognizer for `room-created` send calls. -/
def isRoomCreatedCall (c : Call) : Bool :=
  match c.2 with
  | SMsg.roomCreated _ _ _ => true
  | _ => false

/-- Recognizer for `host-disconnected` send calls. -/
def isHostDisconnectedCall (c : Call) : Bool :=
  match c.2 with
  | SMsg.hostDisconnected _ => true
  | _ => false

/-- Recognizer for `error` send calls. -/
def isErrorCall (c : Call) : Bool :=
  match c.2 with
  | SMsg.error _ _ => true
  | _ => false

/-- Registry well-formedness: each entry's stored peer carries the entry's
key as its id (true of every registry the server builds). -/
def regWF (reg : List (String × Peer)) : Prop :=
  ∀ e ∈ reg, e.2.id = e.1

/-- In how many rooms of the directory does `pid` occur as a member? -/
def memberRoomCount (s : ServerState) (pid : String) : Nat :=
  (s.rooms.filter (fun e => e.2.peers.contains pid)).length

/-! ### Concrete scenario states used as witnesses and counterexamples -/

/-- A connected, unaffiliated peer. -/
def cexSender : Peer := ⟨"a1b2c3d4", true, none, false, true⟩

/-- A registry holding only `cexSender`; no rooms. -/
def cexState3 : ServerState := ⟨[("a1b2c3d4", cexSender)], []⟩

/-- A host of the room keyed `game#default#boss`. -/
def cexHost : Peer := ⟨"aaaa1111", true, some "game#default#boss", true, true⟩

/-- A member of the room keyed `game#default#boss`. -/
def cexMember : Peer := ⟨"bbbb2222", true, some "game#default#boss", false, true⟩

/-- Host and one member in one room. -/
def cexState5 : ServerState :=
  ⟨[("aaaa1111", cexHost), ("bbbb2222", cexMember)],
   [("game#default#boss", ⟨"aaaa1111", ["bbbb2222"]⟩)]⟩

/-- A registered peer whose id an unlucky random draw can reproduce. -/
def cexOldPeer : Peer := ⟨"deadbeef", true, some "game#default#boss", true, true⟩

/-- A registry holding only `cexOldPeer`. -/
def cexState6 : ServerState := ⟨[("deadbeef", cexOldPeer)], []⟩

/-- Host of room `app#default#r1`. -/
def cexHost1 : Peer := ⟨"11111111", true, some "app#default#r1", true, true⟩

/-- Host of room `app#default#r2`. -/
def cexHost2 : Peer := ⟨"22222222", true, some "app#default#r2", true, true⟩

/-- An unaffiliated peer about to join two rooms in succession. -/
def cexJoiner : Peer := ⟨"33333333", true, none, false, true⟩

/-- Two hosted rooms and the joiner, before any join. -/
def cexState7 : ServerState :=
  ⟨[("11111111", cexHost1), ("22222222", cexHost2), ("33333333", cexJoiner)],
   [("app#default#r1", ⟨"11111111", []⟩), ("app#default#r2", ⟨"22222222", []⟩)]⟩

/-- The joiner's peer object after its first join mutated it. -/
def cexJoiner1 : Peer :=
  { cexJoiner with roomKey := some "app#default#r1", isHost := false }

/-! ### Association-list lemmas -/

theorem mapGet_mapUpdate_self {α : Type} (m : List (String × α)) (k : String)
    (v w : α) (h : mapGet m k = some w) : mapGet (mapUpdate m k v) k = some v := by
  induction m with
  | nil => simp [mapGet] at h
  | cons e m ih =>
    by_cases hp : e.1 = k
    · simp [mapUpdate, mapGet, hp]
    · simp only [mapGet, show (e.1 == k) = false by simp [hp], Bool.false_eq_true,
        if_false] at h
      simp [mapUpdate, mapGet, hp, ih h]

theorem mapGet_mapUpdate_ne {α : Type} (m : List (String × α)) (k k' : String)
    (v : α) (hne : k ≠ k') : mapGet (mapUpdate m k v) k' = mapGet m k' := by
  induction m with
  | nil => simp [mapUpdate]
  | cons e m ih =>
    cases he : e.1 == k with
    | true =>
      have : e.1 = k := by simpa using he
      simp [mapUpdate, mapGet, he, this, hne, ih]
    | false => simp [mapUpdate, mapGet, he, ih]

theorem mapUpdate_keys {α : Type} (m : List (String × α)) (k : String) (v : α) :
    (mapUpdate m k v).map Prod.fst = m.map Prod.fst := by
  induction m with
  | nil => rfl
  | cons e m ih =>
    cases he : e.1 == k with
    | true =>
      have : e.1 = k := by simpa using he
      simp [mapUpdate, he, this, ih]
    | false => simp [mapUpdate, he, ih]

theorem mapUpdate_mapUpdate_same {α : Type} (m : List (String × α))
    (k : String) (v : α) : mapUpdate (mapUpdate m k v) k v = mapUpdate m k v := by
  induction m with
  | nil => rfl
  | cons e m ih =>
    cases he : e.1 == k with
    | true => simp [mapUpdate, he, ih]
    | false => simp [mapUpdate, he, ih]

theorem mapUpdate_of_no_key {α : Type} (m : List (String × α)) (k : String)
    (v : α) (h : ∀ e ∈ m, e.1 ≠ k) : mapUpdate m k v = m := by
  induction m with
  | nil => rfl
  | cons e m ih =>
    have he : (e.1 == k) = false := by
      simpa using h e (by simp)
    simp [mapUpdate, he, ih (fun x hx => h x (by simp [hx]))]

theorem mapGet_eq_none_iff {α : Type} (m : List (String × α)) (k : String) :
    mapGet m k = none ↔ ∀ e ∈ m, e.1 ≠ k := by
  induction m with
  | nil => simp [mapGet]
  | cons e m ih =>
    cases he : e.1 == k with
    | true =>
      have : e.1 = k := by simpa using he
      simp [mapGet, he, this]
    | false =>
      have : ¬ e.1 = k := by simpa using he
      simp [mapGet, he, ih, this]

theorem mapSet_of_get_none {α : Type} (m : List (String × α)) (k : String)
    (v : α) (h : mapGet m k = none) : mapSet m k v = m ++ [(k, v)] := by
  have hall := (mapGet_eq_none_iff m k).mp h
  have : m.any (fun e => e.1 == k) = false := by
    simp only [List.any_eq_false]
    intro e he
    simpa using hall e he
  simp [mapSet, this]

theorem mapGet_isSome_of_any {α : Type} (m : List (String × α)) (k : String)
    (h : (m.any fun e => e.1 == k) = true) : ∃ w, mapGet m k = some w := by
  induction m with
  | nil => simp at h
  | cons e m ih =>
    by_cases hp : e.1 = k
    · exact ⟨e.2, by simp [mapGet, hp]⟩
    · have h2 : (m.any fun e => e.1 == k) = true := by
        simpa [List.any_cons, hp] using h
      obtain ⟨w, hw⟩ := ih h2
      exact ⟨w, by simp [mapGet, hp, hw]⟩

theorem mapGet_append_of_none {α : Type} (m l : List (String × α)) (k : String)
    (h : mapGet m k = none) : mapGet (m ++ l) k = mapGet l k := by
  induction m with
  | nil => rfl
  | cons e m ih =>
    by_cases hp : e.1 = k
    · simp [mapGet, hp] at h
    · simp only [mapGet, show (e.1 == k) = false by simp [hp], Bool.false_eq_true,
        if_false] at h
      simp [mapGet, hp, ih h]

theorem mapGet_mapSet_self {α : Type} (m : List (String × α)) (k : String)
    (v : α) : mapGet (mapSet m k v) k = some v := by
  cases hany : m.any (fun e => e.1 == k) with
  | true =>
    obtain ⟨w, hw⟩ := mapGet_isSome_of_any m k hany
    simpa [mapSet, hany] using mapGet_mapUpdate_self m k v w hw
  | false =>
    have hnone : mapGet m k = none := by
      rw [mapGet_eq_none_iff]
      intro e he
      have := List.any_eq_false.mp hany e he
      simpa using this
    simp [mapSet, hany, mapGet_append_of_none m [(k, v)] k hnone, mapGet]

theorem mapGet_mapDelete_self {α : Type} (m : List (String × α)) (k : String) :
    mapGet (mapDelete m k) k = none := by
  induction m with
  | nil => rfl
  | cons e m ih =>
    by_cases hp : e.1 = k
    · simp [mapDelete, hp, ih]
    · simp [mapDelete, mapGet, hp, ih]

theorem mapDelete_no_key {α : Type} (m : List (String × α)) (k : String) :
    ∀ e ∈ mapDelete m k, e.1 ≠ k := by
  induction m with
  | nil => simp [mapDelete]
  | cons e m ih =>
    by_cases hp : e.1 = k
    · simpa [mapDelete, hp] using ih
    · intro x hx
      simp only [mapDelete, bne_iff_ne, ne_eq, hp, not_false_eq_true, if_pos,
        List.mem_cons] at hx
      rcases hx with hx | hx
      · rw [hx]
        exact hp
      · exact ih x hx

theorem mapDelete_of_no_key {α : Type} (m : List (String × α)) (k : String)
    (h : ∀ e ∈ m, e.1 ≠ k) : mapDelete m k = m := by
  induction m with
  | nil => rfl
  | cons e m ih =>
    have hp : e.1 ≠ k := h e (by simp)
    simp [mapDelete, hp, ih (fun x hx => h x (by simp [hx]))]

theorem mapDelete_idem {α : Type} (m : List (String × α)) (k : String) :
    mapDelete (mapDelete m k) k = mapDelete m k :=
  mapDelete_of_no_key _ _ (mapDelete_no_key m k)

theorem mapGet_mapDelete_ne {α : Type} (m : List (String × α)) (k k' : String)
    (hne : k ≠ k') : mapGet (mapDelete m k) k' = mapGet m k' := by
  induction m with
  | nil => rfl
  | cons e m ih =>
    by_cases hp : e.1 = k
    · simp [mapDelete, mapGet, hp, hne, ih]
    · simp [mapDelete, mapGet, hp, ih]

theorem mem_of_mem_mapDelete {α : Type} {m : List (String × α)} {k : String}
    {e : String × α} (h : e ∈ mapDelete m k) : e ∈ m := by
  induction m with
  | nil => simp [mapDelete] at h
  | cons f m ih =>
    by_cases hp : f.1 = k
    · simp only [mapDelete, hp, bne_self_eq_false, Bool.false_eq_true,
        if_false] at h
      exact List.mem_cons_of_mem f (ih h)
    · simp only [mapDelete, bne_iff_ne, ne_eq, hp, not_false_eq_true, if_pos,
        List.mem_cons] at h
      rcases h with h | h
      · simp [h]
      · exact List.mem_cons_of_mem f (ih h)

theorem mem_of_mem_mapUpdate {α : Type} {m : List (String × α)} {k : String}
    {v : α} {e : String × α} (h : e ∈ mapUpdate m k v) :
    e = (k, v) ∨ e ∈ m := by
  induction m with
  | nil => simp [mapUpdate] at h
  | cons f m ih =>
    simp only [mapUpdate, List.mem_cons] at h
    rcases h with h | h
    · by_cases hp : f.1 = k
      · simp only [hp, beq_self_eq_true, if_pos] at h
        exact Or.inl h
      · simp only [show (f.1 == k) = false by simp [hp], Bool.false_eq_true,
          if_false] at h
        exact Or.inr (by simp [h])
    · rcases ih h with h | h
      · exact Or.inl h
      · exact Or.inr (List.mem_cons_of_mem f h)

theorem regWF_mapDelete {reg : List (String × Peer)} {k : String}
    (h : regWF reg) : regWF (mapDelete reg k) :=
  fun e he => h e (mem_of_mem_mapDelete he)

theorem regWF_mapUpdate {reg : List (String × Peer)} {k : String} {v : Peer}
    (h : regWF reg) (hv : v.id = k) : regWF (mapUpdate reg k v) := by
  intro e he
  rcases mem_of_mem_mapUpdate he with he | he
  · rw [he]
    exact hv
  · exact h e he

theorem regWF_get {reg : List (String × Peer)} {cid : String} {cp : Peer}
    (h : regWF reg) (hg : mapGet reg cid = some cp) : cp.id = cid := by
  induction reg with
  | nil => simp [mapGet] at hg
  | cons e m ih =>
    by_cases hp : e.1 = cid
    · simp only [mapGet, hp, beq_self_eq_true, if_pos] at hg
      have h2 : e.2 = cp := Option.some.inj hg
      rw [← h2, h e (by simp)]
      exact hp
    · simp only [mapGet, show (e.1 == cid) = false by simp [hp],
        Bool.false_eq_true, if_false] at hg
      exact ih (fun x hx => h x (List.mem_cons_of_mem e hx)) hg

/-! ### notifyMembers lemmas -/

theorem notifyMembers_keys (reg : List (String × Peer)) (ids : List String) :
    ((notifyMembers reg ids).1).map Prod.fst = reg.map Prod.fst := by
  induction ids generalizing reg with
  | nil => rfl
  | cons cid rest ih =>
    cases hg : mapGet reg cid with
    | none => simp [notifyMembers, hg, ih]
    | some cp =>
      simp only [notifyMembers, hg]
      rw [ih, mapUpdate_keys]

theorem notifyMembers_WF (reg : List (String × Peer)) (ids : List String)
    (h : regWF reg) : regWF (notifyMembers reg ids).1 := by
  induction ids generalizing reg with
  | nil => exact h
  | cons cid rest ih =>
    cases hg : mapGet reg cid with
    | none => simpa [notifyMembers, hg] using ih reg h
    | some cp =>
      have hcp : cp.id = cid := regWF_get h hg
      simp only [notifyMembers, hg]
      exact ih _ (regWF_mapUpdate h (by simp [hcp]))

theorem notifyMembers_get_notmem (reg : List (String × Peer))
    (ids : List String) (cid : String) (h : cid ∉ ids) :
    mapGet (notifyMembers reg ids).1 cid = mapGet reg cid := by
  induction ids generalizing reg with
  | nil => rfl
  | cons c rest ih =>
    have hc : c ≠ cid := fun he => h (by simp [he])
    have hrest : cid ∉ rest := fun hr => h (by simp [hr])
    cases hg : mapGet reg c with
    | none => simpa [notifyMembers, hg] using ih reg hrest
    | some cp =>
      simp only [notifyMembers, hg]
      rw [ih _ hrest, mapGet_mapUpdate_ne _ _ _ _ hc]

theorem notifyMembers_count_zero (reg : List (String × Peer))
    (ids : List String) (cid : String) (hwf : regWF reg) (h : cid ∉ ids) :
    ((notifyMembers reg ids).2.countP
      (fun c => c.1.id == cid && isHostDisconnectedCall c)) = 0 := by
  induction ids generalizing reg with
  | nil => rfl
  | cons c rest ih =>
    have hc : c ≠ cid := fun he => h (by simp [he])
    have hrest : cid ∉ rest := fun hr => h (by simp [hr])
    cases hg : mapGet reg c with
    | none => simpa [notifyMembers, hg] using ih reg hwf hrest
    | some cp =>
      have hcp : cp.id = c := regWF_get hwf hg
      have hwf1 : regWF (mapUpdate reg c { cp with roomKey := none }) :=
        regWF_mapUpdate hwf (by simp [hcp])
      simp only [notifyMembers, hg, List.countP_cons]
      rw [ih _ hwf1 hrest]
      simp [isHostDisconnectedCall, hcp, hc]

theorem notifyMembers_count_one (reg : List (String × Peer))
    (ids : List String) (cid : String) (cp : Peer) (hwf : regWF reg)
    (hnd : ids.Nodup) (hmem : cid ∈ ids) (hg : mapGet reg cid = some cp) :
    ((notifyMembers reg ids).2.countP
      (fun c => c.1.id == cid && isHostDisconnectedCall c)) = 1 ∧
    mapGet (notifyMembers reg ids).1 cid = some { cp with roomKey := none } := by
  induction ids generalizing reg with
  | nil => simp at hmem
  | cons c rest ih =>
    have hnd' : rest.Nodup := (List.nodup_cons.mp hnd).2
    have hcrest : c ∉ rest := (List.nodup_cons.mp hnd).1
    rcases List.mem_cons.mp hmem with hceq | hmem'
    · rw [← hceq] at hcrest ⊢
      have hcp : cp.id = cid := regWF_get hwf hg
      have hwf1 : regWF (mapUpdate reg cid { cp with roomKey := none }) :=
        regWF_mapUpdate hwf (by simp [hcp])
      constructor
      · simp only [notifyMembers, hg, List.countP_cons]
        rw [notifyMembers_count_zero _ rest cid hwf1 hcrest]
        simp [isHostDisconnectedCall, hcp]
      · simp only [notifyMembers, hg]
        rw [notifyMembers_get_notmem _ rest cid hcrest]
        exact mapGet_mapUpdate_self _ _ _ _ hg
    · have hc : c ≠ cid := by
        intro he
        rw [he] at hcrest
        exact hcrest hmem'
      cases hgc : mapGet reg c with
      | none =>
        have := ih reg hwf hnd' hmem' hg
        simpa [notifyMembers, hgc] using this
      | some cpc =>
        have hcpc : cpc.id = c := regWF_get hwf hgc
        have hwf1 : regWF (mapUpdate reg c { cpc with roomKey := none }) :=
          regWF_mapUpdate hwf (by simp [hcpc])
        have hg1 : mapGet (mapUpdate reg c { cpc with roomKey := none }) cid
            = some cp := by
          rw [mapGet_mapUpdate_ne _ _ _ _ hc]
          exact hg
        have := ih _ hwf1 hnd' hmem' hg1
        constructor
        · simp only [notifyMembers, hgc, List.countP_cons]
          rw [this.1]
          simp [isHostDisconnectedCall, hcpc, hc]
        · simpa [notifyMembers, hgc] using this.2

/-! ### handleJoinRoom unfolding lemmas -/

theorem handleJoinRoom_create (s : ServerState) (pl : JoinPayload) (p : Peer)
    (hproj : strFalsy pl.project = false) (hroom : strFalsy pl.room = false)
    (hnone : mapGet s.rooms (joinKey pl) = none) :
    handleJoinRoom s p (some pl) =
      (⟨mapUpdate s.peers p.id
          { p with roomKey := some (joinKey pl), isHost := true },
        mapSet s.rooms (joinKey pl) ⟨p.id, []⟩⟩,
       [({ p with roomKey := some (joinKey pl), isHost := true },
         SMsg.roomCreated "host" (pl.room.getD "")
           "Você é o Host. Aguardando peers...")]) := by
  simp [handleJoinRoom, hproj, hroom, hnone]

theorem handleJoinRoom_existing (s : ServerState) (pl : JoinPayload) (q : Peer)
    (rd : Room)
    (hproj : strFalsy pl.project = false) (hroom : strFalsy pl.room = false)
    (hg : mapGet s.rooms (joinKey pl) = some rd) :
    handleJoinRoom s q (some pl) =
      (⟨mapUpdate s.peers q.id
          { q with roomKey := some (joinKey pl), isHost := false },
        mapUpdate s.rooms (joinKey pl)
          { rd with peers := addSet rd.peers q.id }⟩,
       ({ q with roomKey := some (joinKey pl), isHost := false },
          SMsg.roomJoined "client" (pl.room.getD "") rd.hostId) ::
        (match mapGet (mapUpdate s.peers q.id
            { q with roomKey := some (joinKey pl), isHost := false })
            rd.hostId with
         | some hostPeer => [(hostPeer, SMsg.peerJoined q.id)]
         | none => [])) := by
  simp [handleJoinRoom, hproj, hroom, hg]

theorem handleJoinRoom_existing_out_no_create (s : ServerState)
    (pl : JoinPayload) (q : Peer) (rd : Room)
    (hproj : strFalsy pl.project = false) (hroom : strFalsy pl.room = false)
    (hg : mapGet s.rooms (joinKey pl) = some rd) :
    (handleJoinRoom s q (some pl)).2.filter isRoomCreatedCall = [] := by
  rw [handleJoinRoom_existing s pl q rd hproj hroom hg]
  cases mapGet (mapUpdate s.peers q.id
      { q with roomKey := some (joinKey pl), isHost := false }) rd.hostId with
  | none => simp [isRoomCreatedCall]
  | some hp => simp [isRoomCreatedCall]

/-- The heart of the C1 induction: with the room already hosted, every join
in the sequence is answered with a `room-joined`/client reply naming the
standing host, no `room-created` is emitted, and the host is untouched. -/
theorem joinSeq_clients (pl : JoinPayload)
    (hproj : strFalsy pl.project = false) (hroom : strFalsy pl.room = false)
    (rest : List Peer) (s : ServerState) (rd : Room)
    (hg : mapGet s.rooms (joinKey pl) = some rd) :
    ((mapGet (joinSeq s pl rest).1.rooms (joinKey pl)).map Room.hostId
        = some rd.hostId) ∧
    ∀ i (hi : i < rest.length),
      (((joinSeq s pl rest).2.getD i []).head? =
        some ({ rest.get ⟨i, hi⟩ with
                  roomKey := some (joinKey pl), isHost := false },
              SMsg.roomJoined "client" (pl.room.getD "") rd.hostId)) ∧
      ((joinSeq s pl rest).2.getD i []).filter isRoomCreatedCall = [] := by
  induction rest generalizing s rd with
  | nil =>
    refine ⟨by simp [joinSeq, hg], ?_⟩
    intro i hi
    simp at hi
  | cons q rest ih =>
    have hre := handleJoinRoom_existing s pl q rd hproj hroom hg
    have hg1 : mapGet (handleJoinRoom s q (some pl)).1.rooms (joinKey pl)
        = some { rd with peers := addSet rd.peers q.id } := by
      rw [hre]
      exact mapGet_mapUpdate_self _ _ _ _ hg
    obtain ⟨ihroom, ihout⟩ :=
      ih (handleJoinRoom s q (some pl)).1 { rd with peers := addSet rd.peers q.id } hg1
    constructor
    · show (mapGet (joinSeq (handleJoinRoom s q (some pl)).1 pl rest).1.rooms
          (joinKey pl)).map Room.hostId = some rd.hostId
      exact ihroom
    · intro i hi
      cases i with
      | zero =>
        constructor
        · show ((handleJoinRoom s q (some pl)).2).head? = _
          rw [hre]
          simp
        · show ((handleJoinRoom s q (some pl)).2).filter isRoomCreatedCall = []
          exact handleJoinRoom_existing_out_no_create s pl q rd hproj hroom hg
      | succ j =>
        have hj : j < rest.length := Nat.lt_of_succ_lt_succ hi
        have := ihout j hj
        constructor
        · show (((joinSeq (handleJoinRoom s q (some pl)).1 pl rest).2).getD j
              []).head? = _
          rw [this.1]
          simp
        · exact this.2

/-! ### handleDisconnect unfolding lemmas -/

theorem handleDisconnect_host (s : ServerState) (p : Peer) (rk : String)
    (rd : Room) (hkey : p.roomKey = some rk) (hhost : p.isHost = true)
    (hg : mapGet s.rooms rk = some rd) :
    handleDisconnect s p =
      (⟨(notifyMembers (mapDelete s.peers p.id) rd.peers).1,
        mapDelete s.rooms rk⟩,
       (notifyMembers (mapDelete s.peers p.id) rd.peers).2) := by
  simp [handleDisconnect, hkey, hg, hhost]

theorem handleDisconnect_member (s : ServerState) (p : Peer) (rk : String)
    (rd : Room) (hkey : p.roomKey = some rk) (hhost : p.isHost = false)
    (hg : mapGet s.rooms rk = some rd) :
    handleDisconnect s p =
      (⟨mapDelete s.peers p.id,
        mapUpdate s.rooms rk
          { rd with peers := rd.peers.filter (fun x => x != p.id) }⟩,
       match mapGet (mapDelete s.peers p.id) rd.hostId with
       | some hostPeer => [(hostPeer, SMsg.peerLeft p.id)]
       | none => []) := by
  cases hm : mapGet (mapDelete s.peers p.id) rd.hostId with
  | some hp => simp [handleDisconnect, hkey, hg, hhost, hm]
  | none => simp [handleDisconnect, hkey, hg, hhost, hm]

/-! ### Miscellaneous list lemmas -/

theorem filter_idem {α : Type} (p : α → Bool) (l : List α) :
    (l.filter p).filter p = l.filter p :=
  List.filter_eq_self.mpr (fun _ ha => List.of_mem_filter ha)

theorem filter_length_mapUpdate_le {α : Type} (m : List (String × α))
    (k : String) (v : α) (P : String × α → Bool)
    (hnd : (m.map Prod.fst).Nodup) (hz : (m.filter P).length = 0) :
    ((mapUpdate m k v).filter P).length ≤ 1 := by
  induction m with
  | nil => simp [mapUpdate]
  | cons e m ih =>
    have hnotin : e.1 ∉ m.map Prod.fst := by
      simp only [List.map_cons, List.nodup_cons] at hnd
      exact hnd.1
    have hndm : (m.map Prod.fst).Nodup := by
      simp only [List.map_cons, List.nodup_cons] at hnd
      exact hnd.2
    have hPe : P e = false := by
      cases hq : P e
      · rfl
      · simp [List.filter_cons, hq] at hz
    have hzm : (m.filter P).length = 0 := by
      simpa [List.filter_cons, hPe] using hz
    by_cases hp : e.1 = k
    · have hmu : mapUpdate m k v = m := by
        apply mapUpdate_of_no_key
        intro x hx hxk
        apply hnotin
        rw [← hp] at hxk
        rw [← hxk]
        exact List.mem_map_of_mem Prod.fst hx
      simp only [mapUpdate, show (e.1 == k) = true by simp [hp], if_pos, hmu]
      cases hkv : P (k, v)
      · simp [List.filter_cons, hkv, hzm]
      · simp [List.filter_cons, hkv, hzm]
    · simp only [mapUpdate, show (e.1 == k) = false by simp [hp],
        Bool.false_eq_true, if_false]
      rw [List.filter_cons_of_neg (by simp [hPe])]
      exact ih hndm hzm

/-! ### Hash-separated key splitting (for tenant isolation) -/

theorem append_cons_inj {α : Type} (c : α) :
    ∀ (xs us ys vs : List α), c ∉ xs → c ∉ us →
      xs ++ c :: ys = us ++ c :: vs → xs = us ∧ ys = vs := by
  intro xs
  induction xs with
  | nil =>
    intro us ys vs _ hcus h
    cases us with
    | nil => simpa using h
    | cons u us =>
      simp only [List.nil_append, List.cons_append, List.cons.injEq] at h
      apply absurd _ hcus
      rw [h.1]
      exact List.mem_cons_self u us
  | cons x xs ih =>
    intro us ys vs hcxs hcus h
    cases us with
    | nil =>
      simp only [List.cons_append, List.nil_append, List.cons.injEq] at h
      apply absurd _ hcxs
      rw [← h.1]
      exact List.mem_cons_self x xs
    | cons u us =>
      simp only [List.cons_append, List.cons.injEq] at h
      have hx : c ∉ xs := fun hm => hcxs (List.mem_cons_of_mem x hm)
      have hu : c ∉ us := fun hm => hcus (List.mem_cons_of_mem u hm)
      obtain ⟨h1, h2⟩ := ih us ys vs hx hu h.2
      exact ⟨by rw [h.1, h1], h2⟩

theorem roomKeyOf_inj (p1 i1 r1 p2 i2 r2 : String)
    (hp1 : '#' ∉ p1.data) (hp2 : '#' ∉ p2.data)
    (hi1 : '#' ∉ i1.data) (hi2 : '#' ∉ i2.data)
    (h : roomKeyOf p1 i1 r1 = roomKeyOf p2 i2 r2) :
    p1 = p2 ∧ i1 = i2 ∧ r1 = r2 := by
  have hd : (roomKeyOf p1 i1 r1).data = (roomKeyOf p2 i2 r2).data := by rw [h]
  simp only [roomKeyOf, String.data_append,
    show ("#" : String).data = ['#'] from rfl, List.append_assoc,
    List.singleton_append] at hd
  obtain ⟨e1, e2⟩ := append_cons_inj '#' p1.data p2.data _ _ hp1 hp2 hd
  obtain ⟨e3, e4⟩ := append_cons_inj '#' i1.data i2.data _ _ hi1 hi2 e2
  exact ⟨String.ext e1, String.ext e3, String.ext e4⟩

/-! ### Claim theorems -/

/-- C1: for every sequence of join-room requests bearing the same
(project, instance, room) key, starting from a state with no entry for that
key, exactly the first requester is answered `room-created` with role
`host` and its id becomes the room's `hostId`; every later requester is
answered `room-joined` with role `client` carrying that host's identity,
and none of the later requests emits a `room-created`. -/
theorem joinRoom_host_election
    (s0 : ServerState) (pl : JoinPayload) (p : Peer) (rest : List Peer)
    (hproj : strFalsy pl.project = false) (hroom : strFalsy pl.room = false)
    (hempty : mapGet s0.rooms (joinKey pl) = none) :
    ((joinSeq s0 pl (p :: rest)).2.getD 0 [] =
      [({ p with roomKey := some (joinKey pl), isHost := true },
        SMsg.roomCreated "host" (pl.room.getD "")
          "Você é o Host. Aguardando peers...")]) ∧
    ((mapGet (joinSeq s0 pl (p :: rest)).1.rooms (joinKey pl)).map Room.hostId
      = some p.id) ∧
    ∀ i (hi : i < rest.length),
      (((joinSeq s0 pl (p :: rest)).2.getD (i + 1) []).head? =
        some ({ rest.get ⟨i, hi⟩ with
                  roomKey := some (joinKey pl), isHost := false },
              SMsg.roomJoined "client" (pl.room.getD "") p.id)) ∧
      ((joinSeq s0 pl (p :: rest)).2.getD (i + 1) []).filter
        isRoomCreatedCall = [] := by
  have hc := handleJoinRoom_create s0 pl p hproj hroom hempty
  have hg1 : mapGet (handleJoinRoom s0 p (some pl)).1.rooms (joinKey pl)
      = some ⟨p.id, []⟩ := by
    rw [hc]
    exact mapGet_mapSet_self _ _ _
  obtain ⟨hroomf, hout⟩ := joinSeq_clients pl hproj hroom rest
    (handleJoinRoom s0 p (some pl)).1 ⟨p.id, []⟩ hg1
  refine ⟨?_, ?_, ?_⟩
  · simp only [joinSeq, List.getD_cons_zero]
    rw [hc]
  · simp only [joinSeq]
    exact hroomf
  · intro i hi
    have hthis := hout i hi
    exact ⟨by simpa only [joinSeq, List.getD_cons_succ] using hthis.1,
           by simpa only [joinSeq, List.getD_cons_succ] using hthis.2⟩

/-- Witness for C1 at a concrete two-peer scenario. -/
theorem joinRoom_host_election_witness :
    (strFalsy (some "game" : Option String) = false ∧
     strFalsy (some "boss" : Option String) = false ∧
     mapGet (⟨[], []⟩ : ServerState).rooms
       (joinKey ⟨some "game", none, some "boss"⟩) = none) ∧
    (((joinSeq ⟨[], []⟩ ⟨some "game", none, some "boss"⟩
        (cexSender :: [cexJoiner])).2.getD 0 [] =
      [({ cexSender with
            roomKey := some (joinKey ⟨some "game", none, some "boss"⟩),
            isHost := true },
        SMsg.roomCreated "host"
          ((⟨some "game", none, some "boss"⟩ : JoinPayload).room.getD "")
          "Você é o Host. Aguardando peers...")]) ∧
    ((mapGet (joinSeq ⟨[], []⟩ ⟨some "game", none, some "boss"⟩
        (cexSender :: [cexJoiner])).1.rooms
        (joinKey ⟨some "game", none, some "boss"⟩)).map Room.hostId
      = some cexSender.id) ∧
    ∀ i (hi : i < [cexJoiner].length),
      (((joinSeq ⟨[], []⟩ ⟨some "game", none, some "boss"⟩
          (cexSender :: [cexJoiner])).2.getD (i + 1) []).head? =
        some ({ [cexJoiner].get ⟨i, hi⟩ with
                  roomKey := some (joinKey ⟨some "game", none, some "boss"⟩),
                  isHost := false },
              SMsg.roomJoined "client"
                ((⟨some "game", none, some "boss"⟩ : JoinPayload).room.getD "")
                cexSender.id)) ∧
      ((joinSeq ⟨[], []⟩ ⟨some "game", none, some "boss"⟩
          (cexSender :: [cexJoiner])).2.getD (i + 1) []).filter
        isRoomCreatedCall = []) :=
  ⟨⟨by decide, by decide, rfl⟩,
   joinRoom_host_election ⟨[], []⟩ ⟨some "game", none, some "boss"⟩
     cexSender [cexJoiner] (by decide) (by decide) rfl⟩

/-- C2: disconnecting the host of an existing room deletes the room entry,
sends exactly one `host-disconnected` message to every member still in the
registry, and leaves each such member with a null `roomKey`. -/
theorem host_disconnect_teardown
    (s : ServerState) (p : Peer) (rk : String) (rd : Room)
    (hkey : p.roomKey = some rk) (hhost : p.isHost = true)
    (hg : mapGet s.rooms rk = some rd)
    (hnd : rd.peers.Nodup) (hwf : regWF s.peers) :
    mapGet (handleDisconnect s p).1.rooms rk = none ∧
    ∀ cid ∈ rd.peers, ∀ cp, mapGet (mapDelete s.peers p.id) cid = some cp →
      ((handleDisconnect s p).2.countP
          (fun c => c.1.id == cid && isHostDisconnectedCall c) = 1) ∧
      (mapGet (handleDisconnect s p).1.peers cid).map Peer.roomKey
        = some none := by
  rw [handleDisconnect_host s p rk rd hkey hhost hg]
  constructor
  · exact mapGet_mapDelete_self _ _
  · intro cid hcid cp hcp
    have hwf0 : regWF (mapDelete s.peers p.id) := regWF_mapDelete hwf
    have hone := notifyMembers_count_one (mapDelete s.peers p.id) rd.peers
      cid cp hwf0 hnd hcid hcp
    exact ⟨hone.1, by rw [hone.2]; rfl⟩

/-- Witness for C2: host with one registered member. -/
theorem host_disconnect_teardown_witness :
    (cexHost.roomKey = some "game#default#boss" ∧ cexHost.isHost = true ∧
     mapGet cexState5.rooms "game#default#boss"
       = some ⟨"aaaa1111", ["bbbb2222"]⟩ ∧
     (["bbbb2222"] : List String).Nodup ∧ regWF cexState5.peers) ∧
    (mapGet (handleDisconnect cexState5 cexHost).1.rooms "game#default#boss"
        = none ∧
     ∀ cid ∈ (⟨"aaaa1111", ["bbbb2222"]⟩ : Room).peers, ∀ cp,
       mapGet (mapDelete cexState5.peers cexHost.id) cid = some cp →
       ((handleDisconnect cexState5 cexHost).2.countP
           (fun c => c.1.id == cid && isHostDisconnectedCall c) = 1) ∧
       (mapGet (handleDisconnect cexState5 cexHost).1.peers cid).map
         Peer.roomKey = some none) :=
  ⟨⟨rfl, rfl, by decide, by decide,
    (by decide : ∀ e ∈ cexState5.peers, e.2.id = e.1)⟩,
   host_disconnect_teardown cexState5 cexHost "game#default#boss"
     ⟨"aaaa1111", ["bbbb2222"]⟩ rfl rfl (by decide) (by decide)
     (by decide : ∀ e ∈ cexState5.peers, e.2.id = e.1)⟩

/-- C3 counterexample: a `data` message to an unregistered target produces
no error call at all (the claim demands exactly one 404 to the sender). -/
theorem routeData_missing_target_cex :
    mapGet cexState3.peers "ffffffff" = none ∧
    ¬ (((routeData cexState3 cexSender "ffffffff" "hello").2.filter
        isErrorCall).length = 1) := by
  decide

/-- C3 amended: only `signal` routing answers a missing target with exactly
one 404 error to the sender and no state change; `data` routing to a
missing target is silently dropped (no message at all, no state change). -/
theorem route_missing_target (s : ServerState) (sender : Peer)
    (target payload : String) (h : mapGet s.peers target = none) :
    routeSignal s sender target payload
      = (s, [(sender, SMsg.error 404 "Peer alvo desconectado.")]) ∧
    routeData s sender target payload = (s, []) := by
  constructor
  · simp [routeSignal, sendError, h]
  · simp [routeData, h]

/-- Witness for the amended C3 statement. -/
theorem route_missing_target_witness :
    mapGet cexState3.peers "ffffffff" = none ∧
    (routeSignal cexState3 cexSender "ffffffff" "hello"
      = (cexState3, [(cexSender, SMsg.error 404 "Peer alvo desconectado.")]) ∧
     routeData cexState3 cexSender "ffffffff" "hello" = (cexState3, [])) :=
  ⟨by decide, route_missing_target cexState3 cexSender "ffffffff" "hello"
    (by decide)⟩

/-- C4 counterexample: two distinct tenant tuples whose components contain
the separator character collapse to the same namespaced room key. -/
theorem roomKey_collision_cex :
    roomKeyOf "a#b" "c" "d" = roomKeyOf "a" "b#c" "d" ∧
    ¬ ((("a#b" : String), ("c" : String), ("d" : String))
        = (("a" : String), ("b#c" : String), ("d" : String))) := by
  constructor
  · rfl
  · decide

/-- C4 amended: for tuples (with the omitted instance already replaced by
the sentinel) whose project and instance components contain no `#`
character, distinct tuples always yield distinct room keys. -/
theorem roomKeyOf_injective_hashfree
    (p1 i1 r1 p2 i2 r2 : String)
    (hp1 : '#' ∉ p1.data) (hp2 : '#' ∉ p2.data)
    (hi1 : '#' ∉ i1.data) (hi2 : '#' ∉ i2.data)
    (hne : (p1, i1, r1) ≠ (p2, i2, r2)) :
    roomKeyOf p1 i1 r1 ≠ roomKeyOf p2 i2 r2 := by
  intro h
  obtain ⟨e1, e2, e3⟩ := roomKeyOf_inj p1 i1 r1 p2 i2 r2 hp1 hp2 hi1 hi2 h
  exact hne (by rw [e1, e2, e3])

/-- Witness for the amended C4 statement. -/
theorem roomKeyOf_injective_hashfree_witness :
    ('#' ∉ ("game" : String).data ∧ '#' ∉ ("app" : String).data ∧
     '#' ∉ ("default" : String).data ∧
     (("game" : String), ("default" : String), ("boss" : String))
       ≠ (("app" : String), ("default" : String), ("boss" : String))) ∧
    roomKeyOf "game" "default" "boss" ≠ roomKeyOf "app" "default" "boss" :=
  ⟨⟨by decide, by decide, by decide, by decide⟩,
   roomKeyOf_injective_hashfree "game" "default" "boss" "app" "default" "boss"
     (by decide) (by decide) (by decide) (by decide) (by decide)⟩

/-- C5 counterexample: running the disconnect path a second time for a
member whose room still exists re-emits a `peer-left` message to the host
(the claim demands that the second run emit no messages). -/
theorem disconnect_second_run_emits_cex :
    ¬ ((handleDisconnect (handleDisconnect cexState5 cexMember).1
        cexMember).2 = []) := by
  decide

/-- C5 amended: a second disconnect for the same peer changes no registry
or room state (state idempotence holds unconditionally), but it is not
necessarily silent — see the counterexample for the re-emitted
`peer-left`. -/
theorem handleDisconnect_state_idempotent (s : ServerState) (p : Peer) :
    (handleDisconnect (handleDisconnect s p).1 p).1
      = (handleDisconnect s p).1 := by
  cases hrk : p.roomKey with
  | none => simp [handleDisconnect, hrk, mapDelete_idem]
  | some rk =>
    cases hg : mapGet s.rooms rk with
    | none => simp [handleDisconnect, hrk, hg, mapDelete_idem]
    | some rd =>
      cases hhost : p.isHost with
      | true =>
        rw [handleDisconnect_host s p rk rd hrk hhost hg]
        have h2 : mapGet (mapDelete s.rooms rk) rk = none :=
          mapGet_mapDelete_self _ _
        simp only [handleDisconnect, hrk, h2]
        have hreg : mapDelete
            (notifyMembers (mapDelete s.peers p.id) rd.peers).1 p.id
            = (notifyMembers (mapDelete s.peers p.id) rd.peers).1 := by
          apply mapDelete_of_no_key
          intro e he hek
          have hmem : e.1 ∈ ((notifyMembers (mapDelete s.peers p.id)
              rd.peers).1).map Prod.fst := List.mem_map_of_mem Prod.fst he
          rw [notifyMembers_keys] at hmem
          obtain ⟨e2, he2, heq⟩ := List.mem_map.mp hmem
          exact mapDelete_no_key _ _ e2 he2 (by rw [heq, hek])
        simp [hreg]
      | false =>
        rw [handleDisconnect_member s p rk rd hrk hhost hg]
        have h2 : mapGet (mapUpdate s.rooms rk
            { rd with peers := rd.peers.filter (fun x => x != p.id) }) rk
            = some { rd with peers := rd.peers.filter (fun x => x != p.id) } :=
          mapGet_mapUpdate_self _ _ _ _ hg
        rw [handleDisconnect_member _ p rk _ hrk hhost h2]
        simp [mapDelete_idem, filter_idem, mapUpdate_mapUpdate_same]

/-- C6 counterexample: when the random draw reproduces a registered id, the
connection handler's `Map.set` displaces the existing registered peer (the
claim asserts freshness is guaranteed and displacement impossible). -/
theorem handleConnection_displacement_cex :
    mapGet cexState6.peers "deadbeef" = some cexOldPeer ∧
    ¬ (mapGet (handleConnection cexState6 "deadbeef" true).1.peers "deadbeef"
        = some cexOldPeer) := by
  decide

/-- C6 amended: identity generation is a random draw with no collision
check, so uniqueness holds only conditionally: when the generated id is
not already registered, the new peer is appended, every existing entry is
untouched (no displacement) and key distinctness is preserved. -/
theorem handleConnection_fresh_id_preserves
    (s : ServerState) (gid : String) (b : Bool)
    (hfresh : mapGet s.peers gid = none) :
    (handleConnection s gid b).1.peers = s.peers ++ [(gid, newPeer gid b)] ∧
    ((s.peers.map Prod.fst).Nodup →
      (((handleConnection s gid b).1.peers).map Prod.fst).Nodup) := by
  have h1 : mapSet s.peers gid (newPeer gid b)
      = s.peers ++ [(gid, newPeer gid b)] :=
    mapSet_of_get_none _ _ _ hfresh
  have hgid : gid ∉ s.peers.map Prod.fst := by
    intro hmem
    obtain ⟨e, he, heq⟩ := List.mem_map.mp hmem
    exact (mapGet_eq_none_iff _ _).mp hfresh e he heq
  constructor
  · exact h1
  · intro hnd
    show ((mapSet s.peers gid (newPeer gid b)).map Prod.fst).Nodup
    rw [h1, List.map_append]
    refine List.Nodup.append hnd (List.nodup_singleton gid) ?_
    intro a ha hb
    simp only [List.map_cons, List.map_nil, List.mem_singleton] at hb
    rw [hb] at ha
    exact hgid ha

/-- Witness for the amended C6 statement. -/
theorem handleConnection_fresh_id_preserves_witness :
    mapGet cexState6.peers "0badf00d" = none ∧
    ((handleConnection cexState6 "0badf00d" true).1.peers
        = cexState6.peers ++ [("0badf00d", newPeer "0badf00d" true)] ∧
     ((cexState6.peers.map Prod.fst).Nodup →
       (((handleConnection cexState6 "0badf00d" true).1.peers).map
         Prod.fst).Nodup)) :=
  ⟨by decide, handleConnection_fresh_id_preserves cexState6 "0badf00d" true
    (by decide)⟩

/-- C7 counterexample: a peer that joins a second room while already a
member of a first one ends up in the member sets of two rooms at once
(the claim asserts membership in at most one room at every reachable
state). -/
theorem double_join_two_rooms_cex :
    memberRoomCount
      (handleJoinRoom (handleJoinRoom cexState7 cexJoiner
          (some ⟨some "app", none, some "r1"⟩)).1 cexJoiner1
        (some ⟨some "app", none, some "r2"⟩)).1 "33333333" = 2 := by
  decide

/-- C7 amended: a single join keeps a peer that is in no member set in at
most one member set; the invariant fails only through repeated joins,
since join never removes the peer from a previously joined room. -/
theorem join_from_no_membership_at_most_one
    (s : ServerState) (q : Peer) (pl : Option JoinPayload)
    (hz : memberRoomCount s q.id = 0)
    (hnd : (s.rooms.map Prod.fst).Nodup) :
    memberRoomCount (handleJoinRoom s q pl).1 q.id ≤ 1 := by
  cases pl with
  | none =>
    have heq : (handleJoinRoom s q none).1 = s := rfl
    rw [heq, hz]
    exact Nat.zero_le 1
  | some pl =>
    cases hval : (strFalsy pl.project || strFalsy pl.room) with
    | true =>
      have heq : (handleJoinRoom s q (some pl)).1 = s := by
        simp [handleJoinRoom, hval]
      rw [heq, hz]
      exact Nat.zero_le 1
    | false =>
      have hproj : strFalsy pl.project = false :=
        (Bool.or_eq_false_iff.mp hval).1
      have hroom : strFalsy pl.room = false :=
        (Bool.or_eq_false_iff.mp hval).2
      cases hg : mapGet s.rooms (joinKey pl) with
      | some rd =>
        rw [handleJoinRoom_existing s pl q rd hproj hroom hg]
        show ((mapUpdate s.rooms (joinKey pl)
            { rd with peers := addSet rd.peers q.id }).filter
          (fun e => e.2.peers.contains q.id)).length ≤ 1
        exact filter_length_mapUpdate_le s.rooms (joinKey pl) _ _ hnd hz
      | none =>
        rw [handleJoinRoom_create s pl q hproj hroom hg]
        have happ := mapSet_of_get_none s.rooms (joinKey pl)
          (⟨q.id, []⟩ : Room) hg
        have hnil : s.rooms.filter (fun e => e.2.peers.contains q.id) = [] :=
          List.length_eq_zero.mp hz
        show ((mapSet s.rooms (joinKey pl) ⟨q.id, []⟩).filter
          (fun e => e.2.peers.contains q.id)).length ≤ 1
        rw [happ, List.filter_append, hnil, List.nil_append]
        simp

/-- Witness for the amended C7 statement at the two-room scenario. -/
theorem join_from_no_membership_at_most_one_witness :
    (memberRoomCount cexState7 cexJoiner.id = 0 ∧
     (cexState7.rooms.map Prod.fst).Nodup) ∧
    memberRoomCount (handleJoinRoom cexState7 cexJoiner
        (some ⟨some "app", none, some "r1"⟩)).1 cexJoiner.id ≤ 1 :=
  ⟨⟨by decide, by decide⟩,
   join_from_no_membership_at_most_one cexState7 cexJoiner
     (some ⟨some "app", none, some "r1"⟩) (by decide) (by decide)⟩

/-- C8: disconnecting a member of an existing room removes its identity
from the room's member set, does not delete the room entry (even when the
member set becomes empty), and, exactly when the room's host is still in
the registry, emits exactly one `peer-left` call — to that host, carrying
the departing identity. -/
theorem member_disconnect_notifies_host
    (s : ServerState) (p : Peer) (rk : String) (rd : Room)
    (hkey : p.roomKey = some rk) (hhost : p.isHost = false)
    (hg : mapGet s.rooms rk = some rd) :
    mapGet (handleDisconnect s p).1.rooms rk
      = some { rd with peers := rd.peers.filter (fun x => x != p.id) } ∧
    (∀ hp, mapGet (mapDelete s.peers p.id) rd.hostId = some hp →
      (handleDisconnect s p).2 = [(hp, SMsg.peerLeft p.id)]) ∧
    (mapGet (mapDelete s.peers p.id) rd.hostId = none →
      (handleDisconnect s p).2 = []) := by
  rw [handleDisconnect_member s p rk rd hkey hhost hg]
  refine ⟨mapGet_mapUpdate_self _ _ _ _ hg, ?_, ?_⟩
  · intro hp hhp
    simp [hhp]
  · intro hnone
    simp [hnone]

/-- Witness for C8: the member of the two-peer room disconnects; its host
is still registered. -/
theorem member_disconnect_notifies_host_witness :
    (cexMember.roomKey = some "game#default#boss" ∧
     cexMember.isHost = false ∧
     mapGet cexState5.rooms "game#default#boss"
       = some ⟨"aaaa1111", ["bbbb2222"]⟩) ∧
    (mapGet (handleDisconnect cexState5 cexMember).1.rooms "game#default#boss"
      = some { (⟨"aaaa1111", ["bbbb2222"]⟩ : Room) with
                 peers := (["bbbb2222"] : List String).filter
                   (fun x => x != cexMember.id) } ∧
    (∀ hp, mapGet (mapDelete cexState5.peers cexMember.id) "aaaa1111"
        = some hp →
      (handleDisconnect cexState5 cexMember).2
        = [(hp, SMsg.peerLeft cexMember.id)]) ∧
    (mapGet (mapDelete cexState5.peers cexMember.id) "aaaa1111" = none →
      (handleDisconnect cexState5 cexMember).2 = [])) :=
  ⟨⟨rfl, rfl, by decide⟩,
   member_disconnect_notifies_host cexState5 cexMember "game#default#boss"
     ⟨"aaaa1111", ["bbbb2222"]⟩ rfl rfl (by decide)⟩

/-- C9: a join-room request with a missing payload, or with an absent or
empty project or room field, is answered with exactly one error call of
code 400 to the requester, and the server state — registry (hence the
peer's roomKey and role) and room directory — is left exactly as it was;
in particular no room is created. -/
theorem joinRoom_validation_error
    (s : ServerState) (peer : Peer) (payload : Option JoinPayload)
    (h : payload = none ∨ ∃ pl, payload = some pl ∧
        (strFalsy pl.project = true ∨ strFalsy pl.room = true)) :
    handleJoinRoom s peer payload
      = (s, [(peer, SMsg.error 400 "Dados de projeto/sala incompletos.")]) := by
  rcases h with h | ⟨pl, hpl, hf⟩
  · rw [h]
    rfl
  · rw [hpl]
    rcases hf with hf | hf
    · simp [handleJoinRoom, sendError, hf]
    · simp [handleJoinRoom, sendError, hf]

/-- Witness for C9: payload present but the room field missing. -/
theorem joinRoom_validation_error_witness :
    ((some (⟨some "game", none, none⟩ : JoinPayload) = none ∨
      ∃ pl, some (⟨some "game", none, none⟩ : JoinPayload) = some pl ∧
        (strFalsy pl.project = true ∨ strFalsy pl.room = true))) ∧
    handleJoinRoom cexState3 cexSender
        (some (⟨some "game", none, none⟩ : JoinPayload))
      = (cexState3,
         [(cexSender, SMsg.error 400 "Dados de projeto/sala incompletos.")]) :=
  ⟨Or.inr ⟨⟨some "game", none, none⟩, rfl, Or.inr rfl⟩,
   joinRoom_validation_error cexState3 cexSender
     (some ⟨some "game", none, none⟩)
     (Or.inr ⟨⟨some "game", none, none⟩, rfl, Or.inr rfl⟩)⟩

/-- C10: the send primitive transmits a message on the wire exactly when
the target socket's readyState is OPEN; otherwise the message is silently
dropped — no frame is emitted to anyone (and `send` touches no server
state). This holds uniformly for every message the server can emit. -/
theorem send_gated_by_readyState (p : Peer) (m : SMsg) :
    (send p m = [(p.id, m)] ∧ p.socketOpen = true) ∨
    (send p m = [] ∧ p.socketOpen = false) := by
  cases h : p.socketOpen
  · right
    exact ⟨by simp [send, h], rfl⟩
  · left
    exact ⟨by simp [send, h], rfl⟩

end Pearl2P
